import Mathlib

/-!
Verification development for the gollm repository (Go LLM client library).

The Go source is shallowly embedded: Go strings become `List Char` where
character-level operations matter (`CleanResponse`) and `String` elsewhere;
Go's `(T, error)` multiple returns become `T × Option GoError` pairs or
`Except GoError T`; Go maps built by literal-then-range-insert become
association lists with a `mapInsert` that mirrors `m[k] = v`; results of
calls into collaborator packages that are not part of the sources
(`encoding/json` decoding, `llm.Validate`, the embedded `llm.LLM.Generate`)
are passed in as parameters describing the collaborator's outcome.
-/

/-- Go `error` values as produced by this repository: either a leaf error
(`errors.New` / an error from a collaborator) or a `fmt.Errorf("...: %w", err)`
wrapper that prepends a message and keeps the original as unwrappable cause. -/
inductive GoError : Type
  | base (msg : String)
  | wrap (msg : String) (cause : GoError)
  deriving DecidableEq

/-- The `Error()` string of a `GoError`: `fmt.Errorf("m: %w", e)` renders as
`m ++ ": " ++ e.Error()`. -/
def GoError.message : GoError → String
  | .base m => m
  | .wrap m c => m ++ ": " ++ c.message

/-- Go `errors.Unwrap`: a `%w` wrapper exposes its cause, a leaf does not. -/
def GoError.unwrap : GoError → Option GoError
  | .base _ => none
  | .wrap _ c => some c

/-! ### CleanResponse (gollm.go)

```go
func CleanResponse(response string) string {
    response = strings.TrimPrefix(response, "```json")
    response = strings.TrimSuffix(response, "```")
    start := strings.Index(response, "{")
    end := strings.LastIndex(response, "}")
    if start != -1 && end != -1 && end > start {
        response = response[start : end+1]
    }
    return strings.TrimSpace(response)
}
```

Strings are embedded as `List Char`; `strings.Index`/`LastIndex` for a
single-character pattern are the first/last index of that character, with
`Option Nat` standing for the `-1` convention.
-/

/-- Go `strings.TrimPrefix(s, pre)`: drop `pre` when it is a prefix, else `s`. -/
def trimPrefixGo (s pre : List Char) : List Char :=
  if pre <+: s then s.drop pre.length else s

/-- Go `strings.TrimSuffix(s, suf)`: drop `suf` when it is a suffix, else `s`. -/
def trimSuffixGo (s suf : List Char) : List Char :=
  if suf <:+ s then s.take (s.length - suf.length) else s

/-- Characters trimmed by Go `strings.TrimSpace` in the Latin-1 range
(`unicode.IsSpace`). -/
def isSpaceChar (c : Char) : Bool :=
  c = ' ' || c = '\t' || c = '\n' || c = '\x0b' || c = '\x0c' || c = '\r' ||
    c = '\u0085' || c = ' '

/-- Go `strings.TrimSpace`: drop whitespace from both ends. -/
def trimSpaceGo (s : List Char) : List Char :=
  ((s.dropWhile isSpaceChar).reverse.dropWhile isSpaceChar).reverse

/-- First index of a character satisfying `p` (Go `strings.Index` for a
one-character pattern); `none` models Go's `-1`. -/
def firstIdx (p : Char → Bool) : List Char → Option Nat
  | [] => none
  | c :: cs => if p c then some 0 else (firstIdx p cs).map (· + 1)

/-- Last index of a character satisfying `p` (Go `strings.LastIndex` for a
one-character pattern); `none` models Go's `-1`. -/
def lastIdx (p : Char → Bool) : List Char → Option Nat
  | [] => none
  | c :: cs =>
    match lastIdx p cs with
    | some i => some (i + 1)
    | none => if p c then some 0 else none

/-- The `response[start : end+1]` clipping step of `CleanResponse`: when a
`{` occurs strictly before the last `}`, keep only that slice. -/
def braceClip (s : List Char) : List Char :=
  match firstIdx (· = '{') s, lastIdx (· = '}') s with
  | some start, some stop =>
    if start < stop then (s.drop start).take (stop + 1 - start) else s
  | _, _ => s

/-- The characters of the opening fence marker stripped by `CleanResponse`. -/
def fenceJson : List Char := "```json".toList

/-- The characters of the closing fence marker stripped by `CleanResponse`. -/
def tripleTick : List Char := "```".toList

/-- `CleanResponse` from gollm.go, over `List Char`. -/
def cleanResponse (s : List Char) : List Char :=
  trimSpaceGo (braceClip (trimSuffixGo (trimPrefixGo s fenceJson) tripleTick))

/-! ### llmImpl.Generate (gollm.go)

The method validates the prompt against its JSON schema when the caller
passed `WithJSONSchemaValidation`, sends the prompt to the embedded
`llm.LLM`, returns `("", err)` unchanged on failure, and otherwise returns
`CleanResponse(response)`.  The outcomes of the two collaborator calls —
`llm.Validate(prompt)` and `l.LLM.Generate(ctx, prompt.String())` — are
parameters of the embedding.
-/

/-- `llmImpl.Generate`: `useJSONSchema` is the flag set by
`WithJSONSchemaValidation`, `validateResult` the outcome of `llm.Validate`
(`some err` = validation failed), `llmResult` the `(response, err)` pair from
the embedded `l.LLM.Generate`. -/
def goGenerate (useJSONSchema : Bool) (validateResult : Option GoError)
    (llmResult : List Char × Option GoError) : List Char × Option GoError :=
  match useJSONSchema, validateResult with
  | true, some err => ([], some (GoError.wrap "invalid prompt" err))
  | _, _ =>
    match llmResult with
    | (_, some err) => ([], some err)
    | (response, none) => (cleanResponse response, none)

/-! ### PromptOptimizer.OptimizePrompt wrapper (gollm.go)

```go
func (po *PromptOptimizer) OptimizePrompt(ctx context.Context) (string, error) {
    optimizedPrompt, err := po.internal.OptimizePrompt(ctx)
    if err != nil {
        return "", fmt.Errorf("optimization failed: %w", err)
    }
    return optimizedPrompt.Input, nil
}
```
-/

/-- The `llm.Prompt` result of the internal optimizer; only its `Input`
field is read by the wrapper. -/
structure LlmPrompt : Type where
  input : String
  deriving DecidableEq

/-- `PromptOptimizer.OptimizePrompt`: the outcome of
`po.internal.OptimizePrompt(ctx)` is the parameter. -/
def optimizePromptWrapper (internalResult : Except GoError LlmPrompt) :
    String × Option GoError :=
  match internalResult with
  | .error err => ("", some (GoError.wrap "optimization failed" err))
  | .ok p => (p.input, none)

/-! ### NewPromptOptimizer (gollm.go)

```go
func NewPromptOptimizer(l LLM, initialPrompt string, taskDesc string, opts ...OptimizerOption) *PromptOptimizer {
    internalLLM, ok := l.(*llmImpl)
    if !ok {
        return nil
    }
    ...
    po := &PromptOptimizer{ internal: ..., memorySize: 2, verbose: false }
    for _, opt := range opts { opt(po) }
    ...
    return po
}
```
-/

/-- The fields of the public `PromptOptimizer` struct that the constructor
sets directly (the `internal` optimizer is summarized by the seed prompt and
task description it is built from). -/
structure PromptOptimizerState : Type where
  seedPrompt : String
  taskDescription : String
  memorySize : Nat
  verbose : Bool
  deriving DecidableEq

/-- A value of the `LLM` interface: either the library's own `*llmImpl`
(with its provider and model fields) or some foreign implementation of the
interface, which the type assertion `l.(*llmImpl)` rejects. -/
inductive LLMInterfaceValue : Type
  | impl (provider : String) (model : String)
  | foreign (tag : String)
  deriving DecidableEq

/-- `NewPromptOptimizer`: a failed `l.(*llmImpl)` assertion returns `nil`
(`none`); otherwise the optimizer is built with `memorySize = 2`,
`verbose = false` and the options applied in order. -/
def newPromptOptimizer (l : LLMInterfaceValue) (initialPrompt taskDesc : String)
    (opts : List (PromptOptimizerState → PromptOptimizerState)) :
    Option PromptOptimizerState :=
  match l with
  | .foreign _ => none
  | .impl _ _ =>
    some (opts.foldl (fun po opt => opt po)
      { seedPrompt := initialPrompt, taskDescription := taskDesc,
        memorySize := 2, verbose := false })

/-! ### ClearMemory / GetMemory (gollm.go)

```go
func (l *llmImpl) ClearMemory() {
    if llmWithMemory, ok := l.LLM.(*llm.LLMWithMemory); ok {
        llmWithMemory.ClearMemory()
    }
}
func (l *llmImpl) GetMemory() []llm.Message {
    if llmWithMemory, ok := l.LLM.(*llm.LLMWithMemory); ok {
        return llmWithMemory.GetMemory()
    }
    return nil
}
```
-/

/-- An `llm.Message` of the conversation history. -/
structure GoMessage : Type where
  role : String
  content : String
  deriving DecidableEq

/-- The embedded `llm.LLM` of an `llmImpl`: either the plain base LLM (no
memory) or an `*llm.LLMWithMemory` carrying a conversation history. -/
inductive InnerLLM : Type
  | plain (tag : String)
  | withMemory (memory : List GoMessage)
  deriving DecidableEq

/-- The `llmImpl` struct fields relevant to the memory operations. -/
structure LlmImplState : Type where
  inner : InnerLLM
  provider : String
  model : String
  deriving DecidableEq

/-- `llmImpl.ClearMemory`: empties the history when the embedded LLM is an
`*llm.LLMWithMemory`, otherwise does nothing. -/
def llmClearMemory (l : LlmImplState) : LlmImplState :=
  match l.inner with
  | .withMemory _ => { l with inner := .withMemory [] }
  | .plain _ => l

/-- `llmImpl.GetMemory`: the history when the embedded LLM is an
`*llm.LLMWithMemory`, otherwise `nil` (`none`). -/
def llmGetMemory (l : LlmImplState) : Option (List GoMessage) :=
  match l.inner with
  | .withMemory msgs => some msgs
  | .plain _ => none

/-- The `llmImpl` returned by `NewLLM` when `config.MemoryOption` is absent:
its embedded LLM is the plain base LLM. -/
def newLLMNoMemory (baseTag provider model : String) : LlmImplState :=
  { inner := .plain baseTag, provider := provider, model := model }

/-! ### Provider ParseResponse (tongyi, zhipu, zhipu_view)

Each provider decodes the body with `json.Unmarshal` into a provider-specific
struct and then checks for a usable text field.  The decoding outcome is the
parameter: `.error e` is a failed `json.Unmarshal`, `.ok r` a successful one.
-/

/-- The inner `Message` struct of a TongYi chat choice. -/
structure TongYiMessage : Type where
  content : String
  deriving DecidableEq

/-- One entry of the TongYi `choices` array. -/
structure TongYiChoice : Type where
  message : TongYiMessage
  deriving DecidableEq

/-- The decoded TongYi chat-completion response body. -/
structure TongYiResponse : Type where
  choices : List TongYiChoice
  deriving DecidableEq

/-- `TongYiProvider.ParseResponse` after the `json.Unmarshal` call. -/
def tongYiParseResponse (decoded : Except GoError TongYiResponse) :
    String × Option GoError :=
  match decoded with
  | .error err => ("", some (GoError.wrap "error parsing response" err))
  | .ok r =>
    match r.choices with
    | [] => ("", some (GoError.base "empty response from API"))
    | c :: _ =>
      if c.message.content = "" then ("", some (GoError.base "empty response from API"))
      else (c.message.content, none)

/-- The inner `Message` struct of a ZhiPu chat choice. -/
structure ZhiPuMessage : Type where
  content : String
  deriving DecidableEq

/-- One entry of the ZhiPu `choices` array. -/
structure ZhiPuChoice : Type where
  message : ZhiPuMessage
  deriving DecidableEq

/-- The decoded ZhiPu chat-completion response body. -/
structure ZhiPuResponse : Type where
  choices : List ZhiPuChoice
  deriving DecidableEq

/-- `ZhiPuProvider.ParseResponse` after the `json.Unmarshal` call. -/
def zhiPuParseResponse (decoded : Except GoError ZhiPuResponse) :
    String × Option GoError :=
  match decoded with
  | .error err => ("", some (GoError.wrap "error parsing response" err))
  | .ok r =>
    match r.choices with
    | [] => ("", some (GoError.base "empty response from API"))
    | c :: _ =>
      if c.message.content = "" then ("", some (GoError.base "empty response from API"))
      else (c.message.content, none)

/-- One entry of the ZhiPu image-generation `data` array. -/
structure ZhiPuViewDataItem : Type where
  url : String
  deriving DecidableEq

/-- One entry of the ZhiPu image-generation `content_filter` array. -/
structure ZhiPuViewFilterItem : Type where
  role : String
  level : Int
  deriving DecidableEq

/-- The decoded ZhiPu image-generation response body. -/
structure ZhiPuViewResponse : Type where
  created : Int
  data : List ZhiPuViewDataItem
  contentFilter : List ZhiPuViewFilterItem
  deriving DecidableEq

/-- `ZhiPuViewProvider.ParseResponse` after the `json.Unmarshal` call. -/
def zhiPuViewParseResponse (decoded : Except GoError ZhiPuViewResponse) :
    String × Option GoError :=
  match decoded with
  | .error err => ("", some (GoError.wrap "error parsing response" err))
  | .ok r =>
    match r.data with
    | [] => ("", some (GoError.base "empty response from API"))
    | d :: _ =>
      if d.url = "" then ("", some (GoError.base "empty response from API"))
      else (d.url, none)

/-- The condition under which `TongYiProvider.ParseResponse` reports
`empty response from API`: `len(Choices) == 0 || Choices[0].Message.Content == ""`. -/
def tongYiNoText (r : TongYiResponse) : Bool :=
  match r.choices with
  | [] => true
  | c :: _ => c.message.content == ""

/-- The corresponding emptiness condition of `ZhiPuProvider.ParseResponse`. -/
def zhiPuNoText (r : ZhiPuResponse) : Bool :=
  match r.choices with
  | [] => true
  | c :: _ => c.message.content == ""

/-- The corresponding emptiness condition of `ZhiPuViewProvider.ParseResponse`:
`len(Data) == 0 || Data[0].Url == ""`. -/
def zhiPuViewNoText (r : ZhiPuViewResponse) : Bool :=
  match r.data with
  | [] => true
  | d :: _ => d.url == ""

/-! ## Claims C1, C2, C4, C7, C9, C10 -/

/-- Claim C1 counterexample: with structured output NOT requested
(`useJSONSchema = false`), `Generate` still rewrites a fenced successful
response, so the returned text differs from the provider's parsed response. -/
theorem c1_counterexample :
    goGenerate false none (("```json \x7b\"a\":1\x7d ```").toList, none)
      ≠ ((("```json \x7b\"a\":1\x7d ```").toList, none) :
          List Char × Option GoError) := by
  decide

/-- Claim C1 (amended): `llmImpl.Generate` applies the `CleanResponse`
post-processing to every successful generation unconditionally — whether or
not the caller requested structured (JSON) output, the returned text is
`CleanResponse` of the provider's parsed response (the structured-output
option only adds prompt validation before the call). -/
theorem c1_generate_always_cleans (useJSONSchema : Bool) (response : List Char) :
    goGenerate useJSONSchema none (response, none) = (cleanResponse response, none) := by
  cases useJSONSchema <;> rfl

/-- Claim C7: for every failing underlying generation, `llmImpl.Generate`
returns the empty string together with the underlying error unchanged, with
no post-processing on the failure path — for either value of the
structured-output flag. -/
theorem c7_generate_error_unchanged (useJSONSchema : Bool) (response : List Char)
    (e : GoError) :
    goGenerate useJSONSchema none (response, some e) = ([], some e) := by
  cases useJSONSchema <;> rfl

/-- Claim C4 counterexample: when the internal optimizer fails with a
concrete error, `PromptOptimizer.OptimizePrompt` does not return that error
itself — it returns a synthetically wrapped one. -/
theorem c4_counterexample :
    optimizePromptWrapper (.error (GoError.base "context deadline exceeded"))
      ≠ ("", some (GoError.base "context deadline exceeded")) := by
  decide

/-- Claim C4 (amended): when the optimization run fails,
`PromptOptimizer.OptimizePrompt` returns the empty string and the underlying
error wrapped as `fmt.Errorf("optimization failed: %w", err)` — a new error
whose message prepends `optimization failed` and whose unwrapped cause is the
original root error, rather than the original error value unchanged. -/
theorem c4_error_wrapped (e : GoError) :
    optimizePromptWrapper (.error e) = ("", some (GoError.wrap "optimization failed" e))
      ∧ (GoError.wrap "optimization failed" e).unwrap = some e
      ∧ (GoError.wrap "optimization failed" e).message = "optimization failed: " ++ e.message := by
  exact ⟨rfl, rfl, rfl⟩

/-- Claim C9: for every `LLM` value that is not the library's own `*llmImpl`,
`NewPromptOptimizer` returns `nil` (`none`), regardless of the initial
prompt, task description and options supplied. -/
theorem c9_foreign_llm_gives_nil (tag initialPrompt taskDesc : String)
    (opts : List (PromptOptimizerState → PromptOptimizerState)) :
    newPromptOptimizer (.foreign tag) initialPrompt taskDesc opts = none := rfl

/-- Claim C10: on an `llmImpl` constructed without the memory option,
`GetMemory` returns `nil` and `ClearMemory` is a no-op leaving the instance
unchanged. -/
theorem c10_no_memory_noop (baseTag provider model : String) :
    llmGetMemory (newLLMNoMemory baseTag provider model) = none
      ∧ llmClearMemory (newLLMNoMemory baseTag provider model)
          = newLLMNoMemory baseTag provider model := by
  exact ⟨rfl, rfl⟩

/-- Claim C2: for each of the three providers, a failed `json.Unmarshal`
yields `("", MalformedResponse)` (the decode error wrapped with
`error parsing response`), a decoded structure with no usable text field
yields `("", EmptyResponse)` (`empty response from API`), and a `nil`-error
result always carries a non-empty text — an error is never silently
substituted by an empty-string success. -/
theorem c2_parse_response_errors :
    (∀ e : GoError, tongYiParseResponse (.error e)
        = ("", some (GoError.wrap "error parsing response" e)))
    ∧ (∀ r : TongYiResponse, tongYiNoText r = true →
        tongYiParseResponse (.ok r) = ("", some (GoError.base "empty response from API")))
    ∧ (∀ d : Except GoError TongYiResponse,
        (tongYiParseResponse d).2 = none → (tongYiParseResponse d).1 ≠ "")
    ∧ (∀ e : GoError, zhiPuParseResponse (.error e)
        = ("", some (GoError.wrap "error parsing response" e)))
    ∧ (∀ r : ZhiPuResponse, zhiPuNoText r = true →
        zhiPuParseResponse (.ok r) = ("", some (GoError.base "empty response from API")))
    ∧ (∀ d : Except GoError ZhiPuResponse,
        (zhiPuParseResponse d).2 = none → (zhiPuParseResponse d).1 ≠ "")
    ∧ (∀ e : GoError, zhiPuViewParseResponse (.error e)
        = ("", some (GoError.wrap "error parsing response" e)))
    ∧ (∀ r : ZhiPuViewResponse, zhiPuViewNoText r = true →
        zhiPuViewParseResponse (.ok r) = ("", some (GoError.base "empty response from API")))
    ∧ (∀ d : Except GoError ZhiPuViewResponse,
        (zhiPuViewParseResponse d).2 = none → (zhiPuViewParseResponse d).1 ≠ "") := by
  refine ⟨fun e => rfl, ?_, ?_, fun e => rfl, ?_, ?_, fun e => rfl, ?_, ?_⟩
  · rintro ⟨_ | ⟨c, rest⟩⟩ h
    · rfl
    · simp only [tongYiNoText, beq_iff_eq] at h
      simp [tongYiParseResponse, h]
  · rintro (e | ⟨_ | ⟨c, rest⟩⟩) h
    · simp [tongYiParseResponse] at h
    · simp [tongYiParseResponse] at h
    · simp only [tongYiParseResponse] at h ⊢
      by_cases hcc : c.message.content = ""
      · rw [if_pos hcc] at h; simp at h
      · rw [if_neg hcc]; exact hcc
  · rintro ⟨_ | ⟨c, rest⟩⟩ h
    · rfl
    · simp only [zhiPuNoText, beq_iff_eq] at h
      simp [zhiPuParseResponse, h]
  · rintro (e | ⟨_ | ⟨c, rest⟩⟩) h
    · simp [zhiPuParseResponse] at h
    · simp [zhiPuParseResponse] at h
    · simp only [zhiPuParseResponse] at h ⊢
      by_cases hcc : c.message.content = ""
      · rw [if_pos hcc] at h; simp at h
      · rw [if_neg hcc]; exact hcc
  · rintro ⟨_, _ | ⟨d0, rest⟩, _⟩ h
    · rfl
    · simp only [zhiPuViewNoText, beq_iff_eq] at h
      simp [zhiPuViewParseResponse, h]
  · rintro (e | ⟨_, _ | ⟨d0, rest⟩, _⟩) h
    · simp [zhiPuViewParseResponse] at h
    · simp [zhiPuViewParseResponse] at h
    · simp only [zhiPuViewParseResponse] at h ⊢
      by_cases hcc : d0.url = ""
      · rw [if_pos hcc] at h; simp at h
      · rw [if_neg hcc]; exact hcc

/-- Claim C2 witness: the error cases at concrete inputs — a decode failure,
an empty `choices`/`data` structure for each provider, and a successful parse
whose text is non-empty. -/
theorem c2_witness :
    tongYiParseResponse (.error (GoError.base "unexpected end of JSON input"))
        = ("", some (GoError.wrap "error parsing response"
            (GoError.base "unexpected end of JSON input")))
    ∧ tongYiParseResponse (.ok ⟨[]⟩) = ("", some (GoError.base "empty response from API"))
    ∧ zhiPuParseResponse (.ok ⟨[⟨⟨""⟩⟩]⟩) = ("", some (GoError.base "empty response from API"))
    ∧ zhiPuViewParseResponse (.ok ⟨123, [], []⟩)
        = ("", some (GoError.base "empty response from API"))
    ∧ (zhiPuViewParseResponse (.ok ⟨1, [⟨"https://img"⟩], []⟩)).1 ≠ "" := by
  refine ⟨c2_parse_response_errors.1 (GoError.base "unexpected end of JSON input"),
    c2_parse_response_errors.2.1 ⟨[]⟩ rfl,
    c2_parse_response_errors.2.2.2.2.1 ⟨[⟨⟨""⟩⟩]⟩ rfl,
    c2_parse_response_errors.2.2.2.2.2.2.2.1 ⟨123, [], []⟩ rfl,
    c2_parse_response_errors.2.2.2.2.2.2.2.2 (.ok ⟨1, [⟨"https://img"⟩], []⟩) rfl⟩

/-! ### Go map embedding

`PrepareRequest` builds a `map[string]interface{}` literal of defaults and
then executes `for k, v := range options { requestBody[k] = v }`.  Go maps
are embedded as association lists with at most one entry per key;
`mapInsert` is the assignment `m[k] = v` (replace if present, else add) and
`mapLookup` is map indexing.  The `range` iteration order over the caller's
map is the order of the association list; since a Go map holds each key
once, the well-formedness hypothesis is that the option keys are distinct.
-/

/-- Go map indexing `m[k]` (with `none` for a missing key). -/
def mapLookup {α : Type} : List (String × α) → String → Option α
  | [], _ => none
  | (k0, v0) :: rest, k => if k0 = k then some v0 else mapLookup rest k

/-- Go map assignment `m[k] = v`: replace the entry if the key is present,
otherwise add it. -/
def mapInsert {α : Type} : List (String × α) → String → α → List (String × α)
  | [], k, v => [(k, v)]
  | (k0, v0) :: rest, k, v =>
    if k0 = k then (k, v) :: rest else (k0, v0) :: mapInsert rest k v

/-- The `for k, v := range options { requestBody[k] = v }` loop. -/
def mapMerge {α : Type} (base : List (String × α)) (options : List (String × α)) :
    List (String × α) :=
  options.foldl (fun acc kv => mapInsert acc kv.1 kv.2) base

theorem mapLookup_mapInsert_self {α : Type} (m : List (String × α)) (k : String) (v : α) :
    mapLookup (mapInsert m k v) k = some v := by
  induction m with
  | nil => simp [mapInsert, mapLookup]
  | cons kv rest ih =>
    obtain ⟨k0, v0⟩ := kv
    by_cases h : k0 = k
    · simp [mapInsert, h, mapLookup]
    · simp [mapInsert, h, mapLookup, ih]

theorem mapLookup_mapInsert_ne {α : Type} (m : List (String × α)) (k k' : String) (v : α)
    (h : k' ≠ k) : mapLookup (mapInsert m k v) k' = mapLookup m k' := by
  induction m with
  | nil => simp [mapInsert, mapLookup, Ne.symm h]
  | cons kv rest ih =>
    obtain ⟨k0, v0⟩ := kv
    by_cases h0 : k0 = k
    · subst h0
      simp only [mapInsert, if_pos rfl]
      simp [mapLookup, Ne.symm h]
    · simp only [mapInsert, if_neg h0]
      by_cases h1 : k0 = k'
      · simp [mapLookup, h1]
      · simp [mapLookup, h1, ih]

theorem mapLookup_eq_none_of_not_mem {α : Type} (m : List (String × α)) (k : String)
    (h : k ∉ m.map Prod.fst) : mapLookup m k = none := by
  induction m with
  | nil => rfl
  | cons kv rest ih =>
    obtain ⟨k0, v0⟩ := kv
    simp only [List.map_cons, List.mem_cons] at h
    push_neg at h
    simp [mapLookup, Ne.symm h.1, ih h.2]

/-- The caller's option entries override the defaults key by key; keys the
caller did not supply keep the default binding. -/
theorem mapLookup_mapMerge {α : Type} (options : List (String × α)) :
    ∀ (base : List (String × α)) (k : String),
      (options.map Prod.fst).Nodup →
      mapLookup (mapMerge base options) k
        = (mapLookup options k).or (mapLookup base k) := by
  induction options with
  | nil => intro base k _; rfl
  | cons kv rest ih =>
    intro base k hnd
    obtain ⟨k0, v0⟩ := kv
    simp only [List.map_cons, List.nodup_cons] at hnd
    have step : mapMerge base ((k0, v0) :: rest) = mapMerge (mapInsert base k0 v0) rest := rfl
    rw [step, ih (mapInsert base k0 v0) k hnd.2]
    by_cases hk : k0 = k
    · subst hk
      rw [mapLookup_eq_none_of_not_mem rest k0 hnd.1]
      simp [mapLookup, mapLookup_mapInsert_self]
    · simp only [mapLookup, if_neg hk]
      cases hrest : mapLookup rest k with
      | some v => simp [Option.or]
      | none => simp [Option.or, mapLookup_mapInsert_ne base k0 k v0 (fun hh => hk hh.symm)]

/-! ### Providers (part_001, part_002): structs, Headers, PrepareRequest

Each provider struct holds `apiKey` and `model`.  `Headers` returns the two
fixed headers; `PrepareRequest` merges the caller's options over the
provider's default request body.  Caller-supplied `interface{}` option
values are embedded as `GoValue`.
-/

/-- A JSON-serializable Go value appearing in a request body:
a string, a `[]map[string]string` message list, or a number. -/
inductive GoValue : Type
  | str (s : String)
  | msgs (messages : List GoMessage)
  | num (n : ℚ)
  deriving DecidableEq

/-- The `TongYiProvider` struct. -/
structure TongYiProvider : Type where
  apiKey : String
  model : String
  deriving DecidableEq

/-- The `ZhiPuProvider` struct. -/
structure ZhiPuProvider : Type where
  apiKey : String
  model : String
  deriving DecidableEq

/-- The `ZhiPuViewProvider` struct. -/
structure ZhiPuViewProvider : Type where
  apiKey : String
  model : String
  deriving DecidableEq

/-- `TongYiProvider.Name`. -/
def tongYiName (_ : TongYiProvider) : String := "tongyi"

/-- `ZhiPuProvider.Name`. -/
def zhiPuName (_ : ZhiPuProvider) : String := "zhipu"

/-- `ZhiPuViewProvider.Name`. -/
def zhiPuViewName (_ : ZhiPuViewProvider) : String := "zhipu_view"

/-- `TongYiProvider.Endpoint`. -/
def tongYiEndpoint (_ : TongYiProvider) : String :=
  "https://dashscope.aliyuncs.com/compatible-mode/v1/chat/completions"

/-- `ZhiPuProvider.Endpoint`. -/
def zhiPuEndpoint (_ : ZhiPuProvider) : String :=
  "https://open.bigmodel.cn/api/paas/v4/chat/completions"

/-- `ZhiPuViewProvider.Endpoint`. -/
def zhiPuViewEndpoint (_ : ZhiPuViewProvider) : String :=
  "https://open.bigmodel.cn/api/paas/v4/images/generations"

/-- `TongYiProvider.Headers`. -/
def tongYiHeaders (p : TongYiProvider) : List (String × String) :=
  [("Content-Type", "application/json"), ("Authorization", "Bearer " ++ p.apiKey)]

/-- `ZhiPuProvider.Headers`. -/
def zhiPuHeaders (p : ZhiPuProvider) : List (String × String) :=
  [("Content-Type", "application/json"), ("Authorization", "Bearer " ++ p.apiKey)]

/-- `ZhiPuViewProvider.Headers`. -/
def zhiPuViewHeaders (p : ZhiPuViewProvider) : List (String × String) :=
  [("Content-Type", "application/json"), ("Authorization", "Bearer " ++ p.apiKey)]

/-- The default request body of `TongYiProvider.PrepareRequest`:
`{"model": p.model, "messages": [{"role": "user", "content": prompt}]}`. -/
def tongYiDefaultBody (p : TongYiProvider) (prompt : String) : List (String × GoValue) :=
  [("model", GoValue.str p.model),
   ("messages", GoValue.msgs [{ role := "user", content := prompt }])]

/-- `TongYiProvider.PrepareRequest` up to JSON serialization: the default
body with the caller's options ranged over it. -/
def tongYiPrepareRequest (p : TongYiProvider) (prompt : String)
    (options : List (String × GoValue)) : List (String × GoValue) :=
  mapMerge (tongYiDefaultBody p prompt) options

/-- The default request body of `ZhiPuProvider.PrepareRequest`. -/
def zhiPuDefaultBody (p : ZhiPuProvider) (prompt : String) : List (String × GoValue) :=
  [("model", GoValue.str p.model),
   ("messages", GoValue.msgs [{ role := "user", content := prompt }])]

/-- `ZhiPuProvider.PrepareRequest` up to JSON serialization. -/
def zhiPuPrepareRequest (p : ZhiPuProvider) (prompt : String)
    (options : List (String × GoValue)) : List (String × GoValue) :=
  mapMerge (zhiPuDefaultBody p prompt) options

/-- The default request body of `ZhiPuViewProvider.PrepareRequest`:
`{"model": p.model, "prompt": prompt}`. -/
def zhiPuViewDefaultBody (p : ZhiPuViewProvider) (prompt : String) : List (String × GoValue) :=
  [("model", GoValue.str p.model), ("prompt", GoValue.str prompt)]

/-- `ZhiPuViewProvider.PrepareRequest` up to JSON serialization. -/
def zhiPuViewPrepareRequest (p : ZhiPuViewProvider) (prompt : String)
    (options : List (String × GoValue)) : List (String × GoValue) :=
  mapMerge (zhiPuViewDefaultBody p prompt) options

/-! ## Claims C6 and C8 -/

/-- Claim C6: for every provider, every prompt and every caller-supplied
options map (distinct keys, as in a Go map), `PrepareRequest` merges the
options over the provider's defaults with caller keys taking precedence:
any key present in the options carries the caller's value in the request
body, and any key absent from the options keeps its default binding. -/
theorem c6_prepare_request_merges (apiKey model prompt k : String)
    (options : List (String × GoValue))
    (hnd : (options.map Prod.fst).Nodup) :
    (mapLookup (tongYiPrepareRequest ⟨apiKey, model⟩ prompt options) k
      = (mapLookup options k).or (mapLookup (tongYiDefaultBody ⟨apiKey, model⟩ prompt) k))
    ∧ (mapLookup (zhiPuPrepareRequest ⟨apiKey, model⟩ prompt options) k
      = (mapLookup options k).or (mapLookup (zhiPuDefaultBody ⟨apiKey, model⟩ prompt) k))
    ∧ (mapLookup (zhiPuViewPrepareRequest ⟨apiKey, model⟩ prompt options) k
      = (mapLookup options k).or (mapLookup (zhiPuViewDefaultBody ⟨apiKey, model⟩ prompt) k)) := by
  unfold tongYiPrepareRequest zhiPuPrepareRequest zhiPuViewPrepareRequest
  exact ⟨mapLookup_mapMerge options _ k hnd,
    mapLookup_mapMerge options _ k hnd,
    mapLookup_mapMerge options _ k hnd⟩

/-- Claim C6 witness: with the concrete options
`{"model": "override", "temperature": 7/10}`, the prepared TongYi body
carries the caller's `model`, keeps the default `messages`, and carries the
caller's extra key; the ZhiPuView body keeps its default `prompt`. -/
theorem c6_witness :
    mapLookup (tongYiPrepareRequest ⟨"key", "qwen-max"⟩ "hello"
        [("model", GoValue.str "override"), ("temperature", GoValue.num (7/10))]) "model"
      = some (GoValue.str "override")
    ∧ mapLookup (tongYiPrepareRequest ⟨"key", "qwen-max"⟩ "hello"
        [("model", GoValue.str "override"), ("temperature", GoValue.num (7/10))]) "messages"
      = some (GoValue.msgs [{ role := "user", content := "hello" }])
    ∧ mapLookup (tongYiPrepareRequest ⟨"key", "qwen-max"⟩ "hello"
        [("model", GoValue.str "override"), ("temperature", GoValue.num (7/10))]) "temperature"
      = some (GoValue.num (7/10))
    ∧ mapLookup (zhiPuViewPrepareRequest ⟨"key", "cogview-3"⟩ "a cat"
        [("size", GoValue.str "1024x1024")]) "prompt"
      = some (GoValue.str "a cat") := by
  have hnd : ((([("model", GoValue.str "override"),
      ("temperature", GoValue.num (7/10))]) : List (String × GoValue)).map Prod.fst).Nodup := by
    simp
  have h1 := (c6_prepare_request_merges "key" "qwen-max" "hello" "model"
    [("model", GoValue.str "override"), ("temperature", GoValue.num (7/10))] hnd).1
  have h2 := (c6_prepare_request_merges "key" "qwen-max" "hello" "messages"
    [("model", GoValue.str "override"), ("temperature", GoValue.num (7/10))] hnd).1
  have h3 := (c6_prepare_request_merges "key" "qwen-max" "hello" "temperature"
    [("model", GoValue.str "override"), ("temperature", GoValue.num (7/10))] hnd).1
  have hnd2 : ((([("size", GoValue.str "1024x1024")]) :
      List (String × GoValue)).map Prod.fst).Nodup := by simp
  have h4 := (c6_prepare_request_merges "key" "cogview-3" "a cat" "prompt"
    [("size", GoValue.str "1024x1024")] hnd2).2.2
  refine ⟨?_, ?_, ?_, ?_⟩
  · rw [h1]; rfl
  · rw [h2]; rfl
  · rw [h3]; rfl
  · rw [h4]; rfl

/-- Claim C8: for every provider constructed with API key `k`, `Headers()`
is a two-entry map carrying exactly `Content-Type: application/json` and
`Authorization: Bearer k`, and no other key is present. -/
theorem c8_headers_exact (apiKey model : String) :
    (mapLookup (tongYiHeaders ⟨apiKey, model⟩) "Content-Type" = some "application/json"
      ∧ mapLookup (tongYiHeaders ⟨apiKey, model⟩) "Authorization" = some ("Bearer " ++ apiKey)
      ∧ (∀ key : String, key ≠ "Content-Type" → key ≠ "Authorization" →
          mapLookup (tongYiHeaders ⟨apiKey, model⟩) key = none)
      ∧ (tongYiHeaders ⟨apiKey, model⟩).length = 2)
    ∧ (mapLookup (zhiPuHeaders ⟨apiKey, model⟩) "Content-Type" = some "application/json"
      ∧ mapLookup (zhiPuHeaders ⟨apiKey, model⟩) "Authorization" = some ("Bearer " ++ apiKey)
      ∧ (∀ key : String, key ≠ "Content-Type" → key ≠ "Authorization" →
          mapLookup (zhiPuHeaders ⟨apiKey, model⟩) key = none)
      ∧ (zhiPuHeaders ⟨apiKey, model⟩).length = 2)
    ∧ (mapLookup (zhiPuViewHeaders ⟨apiKey, model⟩) "Content-Type" = some "application/json"
      ∧ mapLookup (zhiPuViewHeaders ⟨apiKey, model⟩) "Authorization" = some ("Bearer " ++ apiKey)
      ∧ (∀ key : String, key ≠ "Content-Type" → key ≠ "Authorization" →
          mapLookup (zhiPuViewHeaders ⟨apiKey, model⟩) key = none)
      ∧ (zhiPuViewHeaders ⟨apiKey, model⟩).length = 2) := by
  refine ⟨⟨rfl, ?_, ?_, rfl⟩, ⟨rfl, ?_, ?_, rfl⟩, ⟨rfl, ?_, ?_, rfl⟩⟩ <;>
    first
    | (show mapLookup _ "Authorization" = _
       simp [mapLookup, tongYiHeaders, zhiPuHeaders, zhiPuViewHeaders])
    | (intro key h1 h2
       simp [mapLookup, tongYiHeaders, zhiPuHeaders, zhiPuViewHeaders,
         Ne.symm h1, Ne.symm h2])

/-- Claim C8 witness: the headers of each provider at the concrete key
`"secret"`, including the absence of an unrelated header. -/
theorem c8_witness :
    mapLookup (tongYiHeaders ⟨"secret", "qwen-max"⟩) "Authorization" = some "Bearer secret"
    ∧ mapLookup (zhiPuHeaders ⟨"secret", "glm-4"⟩) "Content-Type" = some "application/json"
    ∧ mapLookup (zhiPuViewHeaders ⟨"secret", "cogview-3"⟩) "Accept" = none := by
  refine ⟨?_, ?_, ?_⟩
  · have h := (c8_headers_exact "secret" "qwen-max").1.2.1
    simpa using h
  · exact (c8_headers_exact "secret" "glm-4").2.1.1
  · exact (c8_headers_exact "secret" "cogview-3").2.2.2.2.1 "Accept"
      (by decide) (by decide)

/-! ### Prompt Optimizer loop (spec §4.4)

The loop body of `llm.PromptOptimizer.OptimizePrompt` lives in the internal
`llm` package, which is not among the sources; only its gollm-side callers
are.  It is therefore modelled from the spec.  The grader (`assess`) and the
candidate-revision call (`revise`) are the outcomes of the underlying LLM
calls after their internal retries; `cancelled` tells for each iteration
whether the caller's context has fired; scores are embedded as rationals.
-/

/-- The grading result of one candidate; the spec's `Assessment` reduced to
the field the termination policy reads. -/
structure Assessment : Type where
  overallScore : ℚ
  deriving DecidableEq

/-- One iteration's record in the OptimizationHistory: the candidate prompt
tried and its assessment. -/
structure OptimizationEntry : Type where
  prompt : String
  assessment : Assessment
  deriving DecidableEq

/-- Modelled from the spec: the iteration loop of the internal
`llm.PromptOptimizer.OptimizePrompt` (not under the sources; spec §4.4).
Each iteration assesses the current candidate, appends `{candidate,
assessment}` to the history, and terminates when `OverallScore ≥ Threshold`,
when the iteration cap is exhausted, or when the caller's cancellation
signal fires; otherwise it continues from the revised candidate.  `fuel` is
the number of iterations still allowed, `iter` the 1-based iteration index. -/
def optimizeAux (assess : Nat → String → ℚ) (revise : String → ℚ → String)
    (threshold : ℚ) (cancelled : Nat → Bool) :
    Nat → Nat → String → List OptimizationEntry →
      List OptimizationEntry × Except GoError String
  | 0, _, current, hist => (hist, .ok current)
  | fuel + 1, iter, current, hist =>
    if cancelled iter then (hist, .error (GoError.base "context canceled"))
    else
      let score := assess iter current
      let hist2 := hist ++ [{ prompt := current, assessment := { overallScore := score } }]
      if threshold ≤ score then (hist2, .ok current)
      else if fuel = 0 then (hist2, .ok current)
      else optimizeAux assess revise threshold cancelled fuel (iter + 1)
        (revise current score) hist2

/-- Modelled from the spec: a full optimizer run with iteration cap `cap`
starting from the seed prompt and an empty history. -/
def optimizePromptRun (assess : Nat → String → ℚ) (revise : String → ℚ → String)
    (threshold : ℚ) (cancelled : Nat → Bool) (cap : Nat) (seed : String) :
    List OptimizationEntry × Except GoError String :=
  optimizeAux assess revise threshold cancelled cap 1 seed []

theorem optimizeAux_length_of_below (assess : Nat → String → ℚ)
    (revise : String → ℚ → String) (threshold : ℚ) (cancelled : Nat → Bool)
    (hbelow : ∀ i p, assess i p < threshold) (hlive : ∀ i, cancelled i = false) :
    ∀ (fuel : Nat), 0 < fuel → ∀ (iter : Nat) (current : String)
      (hist : List OptimizationEntry),
      (optimizeAux assess revise threshold cancelled fuel iter current hist).1.length
        = hist.length + fuel := by
  intro fuel
  induction fuel with
  | zero => intro h; exact absurd h (Nat.lt_irrefl 0)
  | succ f ih =>
    intro _ iter current hist
    rw [optimizeAux]
    rw [hlive iter]
    simp only [if_false, Bool.false_eq_true]
    rw [if_neg (not_le.mpr (hbelow iter current))]
    rcases Nat.eq_zero_or_pos f with hf | hf
    · subst hf
      simp
    · rw [if_neg (Nat.pos_iff_ne_zero.mp hf)]
      rw [ih hf (iter + 1) (revise current (assess iter current)) _]
      simp [Nat.add_assoc, Nat.add_comm 1 f]

/-! ## Claim C5 -/

/-- Claim C5 (spec-modelled): the optimizer loop terminates exactly on
threshold, iteration cap, or cancellation — (a) with a grader that never
meets the threshold and no cancellation, a run with iteration cap `N ≥ 1`
performs exactly `N` iterations and its OptimizationHistory has length
exactly `N`; (b) when the very first assessment meets the threshold the run
stops after one iteration with the seed as result; (c) when cancellation
fires at the first iteration the run stops with no history growth. -/
theorem c5_optimizer_termination (assess : Nat → String → ℚ)
    (revise : String → ℚ → String) (threshold : ℚ) (cancelled : Nat → Bool)
    (N : Nat) (seed : String) :
    (0 < N → (∀ i p, assess i p < threshold) → (∀ i, cancelled i = false) →
      (optimizePromptRun assess revise threshold cancelled N seed).1.length = N)
    ∧ (0 < N → cancelled 1 = false → threshold ≤ assess 1 seed →
      (optimizePromptRun assess revise threshold cancelled N seed).1.length = 1
        ∧ (optimizePromptRun assess revise threshold cancelled N seed).2 = .ok seed)
    ∧ (0 < N → cancelled 1 = true →
      optimizePromptRun assess revise threshold cancelled N seed
        = ([], .error (GoError.base "context canceled"))) := by
  refine ⟨?_, ?_, ?_⟩
  · intro hN hbelow hlive
    have h := optimizeAux_length_of_below assess revise threshold cancelled
      hbelow hlive N hN 1 seed []
    simpa [optimizePromptRun] using h
  · intro hN hc1 hsc
    obtain ⟨m, rfl⟩ := Nat.exists_eq_succ_of_ne_zero (Nat.pos_iff_ne_zero.mp hN)
    unfold optimizePromptRun
    rw [optimizeAux, hc1]
    simp only [Bool.false_eq_true, if_false]
    rw [if_pos hsc]
    exact ⟨rfl, rfl⟩
  · intro hN hc1
    obtain ⟨m, rfl⟩ := Nat.exists_eq_succ_of_ne_zero (Nat.pos_iff_ne_zero.mp hN)
    unfold optimizePromptRun
    rw [optimizeAux, hc1]
    simp

/-- Claim C5 witness: a cap-3 run whose grader always returns 0 against
threshold 1 records exactly 3 history entries. -/
theorem c5_witness :
    (optimizePromptRun (fun _ _ => 0) (fun p _ => p) 1 (fun _ => false) 3 "seed").1.length
      = 3 := by
  exact (c5_optimizer_termination (fun _ _ => 0) (fun p _ => p) 1 (fun _ => false)
    3 "seed").1 (by decide) (fun _ _ => by norm_num) (fun _ => rfl)

/-! ### Lemmas about `firstIdx` / `lastIdx` (Go `strings.Index` / `LastIndex`) -/

theorem firstIdx_sound (p : Char → Bool) :
    ∀ (l : List Char) (i : Nat), firstIdx p l = some i →
      ∃ c, l[i]? = some c ∧ p c = true := by
  intro l
  induction l with
  | nil => intro i h; simp [firstIdx] at h
  | cons d ds ih =>
    intro i h
    rw [firstIdx] at h
    by_cases hpd : p d = true
    · rw [if_pos hpd] at h
      injection h with h
      subst h
      exact ⟨d, by simp, hpd⟩
    · rw [if_neg hpd] at h
      cases hf : firstIdx p ds with
      | none => rw [hf] at h; exact Option.noConfusion h
      | some j =>
        rw [hf] at h
        simp only [Option.map_some'] at h
        injection h with h
        subst h
        obtain ⟨c, hc, hpc⟩ := ih j hf
        exact ⟨c, by simpa using hc, hpc⟩

theorem firstIdx_le (p : Char → Bool) :
    ∀ (l : List Char) (i : Nat) (c : Char), l[i]? = some c → p c = true →
      ∃ a, firstIdx p l = some a ∧ a ≤ i := by
  intro l
  induction l with
  | nil => intro i c h _; simp at h
  | cons d ds ih =>
    intro i c h hpc
    by_cases hpd : p d = true
    · exact ⟨0, by rw [firstIdx, if_pos hpd], Nat.zero_le i⟩
    · cases i with
      | zero =>
        simp only [List.getElem?_cons_zero] at h
        injection h with h
        subst h
        exact absurd hpc hpd
      | succ j =>
        simp only [List.getElem?_cons_succ] at h
        obtain ⟨a, ha, hle⟩ := ih j c h hpc
        exact ⟨a + 1, by rw [firstIdx, if_neg hpd, ha]; rfl, Nat.succ_le_succ hle⟩

theorem lastIdx_sound (p : Char → Bool) :
    ∀ (l : List Char) (j : Nat), lastIdx p l = some j →
      ∃ c, l[j]? = some c ∧ p c = true := by
  intro l
  induction l with
  | nil => intro j h; simp [lastIdx] at h
  | cons d ds ih =>
    intro j h
    rw [lastIdx] at h
    cases hl : lastIdx p ds with
    | some i =>
      rw [hl] at h
      injection h with h
      subst h
      obtain ⟨c, hc, hpc⟩ := ih i hl
      exact ⟨c, by simpa using hc, hpc⟩
    | none =>
      rw [hl] at h
      by_cases hpd : p d = true
      · rw [if_pos hpd] at h
        injection h with h
        subst h
        exact ⟨d, by simp, hpd⟩
      · rw [if_neg hpd] at h
        exact Option.noConfusion h

theorem lastIdx_ge (p : Char → Bool) :
    ∀ (l : List Char) (j : Nat) (c : Char), l[j]? = some c → p c = true →
      ∃ b, lastIdx p l = some b ∧ j ≤ b := by
  intro l
  induction l with
  | nil => intro j c h _; simp at h
  | cons d ds ih =>
    intro j c h hpc
    cases j with
    | zero =>
      cases hl : lastIdx p ds with
      | some i => exact ⟨i + 1, by rw [lastIdx, hl], Nat.zero_le _⟩
      | none =>
        simp only [List.getElem?_cons_zero] at h
        injection h with h
        subst h
        exact ⟨0, by rw [lastIdx, hl, if_pos hpc], Nat.le_refl 0⟩
    | succ k =>
      simp only [List.getElem?_cons_succ] at h
      obtain ⟨b, hb, hle⟩ := ih k c h hpc
      exact ⟨b + 1, by rw [lastIdx, hb], Nat.succ_le_succ hle⟩

/-! ### The brace-clipping branch of `CleanResponse` -/

/-- The spec-level shape hypothesis "the input contains a JSON object": an
opening brace occurs strictly before a closing brace. -/
def ContainsJsonObject (s : List Char) : Prop :=
  ∃ i j : Nat, i < j ∧ s[i]? = some '{' ∧ s[j]? = some '}'

theorem braceClip_eq_of_idx (t : List Char) (a b : Nat)
    (hf : firstIdx (· = '{') t = some a) (hl : lastIdx (· = '}') t = some b)
    (hab : a < b) :
    braceClip t = (t.drop a).take (b + 1 - a) := by
  unfold braceClip
  rw [hf, hl]
  show (if a < b then (t.drop a).take (b + 1 - a) else t) = (t.drop a).take (b + 1 - a)
  rw [if_pos hab]

theorem braceClip_of_contains (t : List Char) (h : ContainsJsonObject t) :
    (braceClip t).head? = some '{' ∧ (braceClip t).getLast? = some '}' := by
  obtain ⟨i, j, hij, hi, hj⟩ := h
  obtain ⟨a, ha, hai⟩ := firstIdx_le (· = '{') t i '{' hi (by simp)
  obtain ⟨b, hb, hjb⟩ := lastIdx_ge (· = '}') t j '}' hj (by simp)
  have hab : a < b := Nat.lt_of_le_of_lt hai (Nat.lt_of_lt_of_le hij hjb)
  obtain ⟨ca, hca, hpa⟩ := firstIdx_sound (· = '{') t a ha
  obtain ⟨cb, hcb, hpb⟩ := lastIdx_sound (· = '}') t b hb
  have hca' : t[a]? = some '{' := by
    rw [hca]; congr 1; exact of_decide_eq_true hpa
  have hcb' : t[b]? = some '}' := by
    rw [hcb]; congr 1; exact of_decide_eq_true hpb
  have hblen : b < t.length := (List.getElem?_eq_some_iff.mp hcb').1
  rw [braceClip_eq_of_idx t a b ha hb hab]
  have hdlen : (t.drop a).length = t.length - a := List.length_drop a t
  have hulen : ((t.drop a).take (b + 1 - a)).length = b + 1 - a := by
    rw [List.length_take, hdlen]
    omega
  constructor
  · rw [List.head?_eq_getElem?]
    rw [List.getElem?_take_of_lt (by omega : 0 < b + 1 - a)]
    rw [List.getElem?_drop]
    simpa using hca'
  · rw [List.getLast?_eq_getElem?, hulen]
    rw [List.getElem?_take_of_lt (by omega : b + 1 - a - 1 < b + 1 - a)]
    rw [List.getElem?_drop]
    have : a + (b + 1 - a - 1) = b := by omega
    rw [this]
    exact hcb'

theorem braceClip_of_not_contains (t : List Char) (h : ¬ ContainsJsonObject t) :
    braceClip t = t := by
  unfold braceClip
  cases hf : firstIdx (· = '{') t with
  | none => rfl
  | some a =>
    cases hl : lastIdx (· = '}') t with
    | none => rfl
    | some b =>
      show (if a < b then (t.drop a).take (b + 1 - a) else t) = t
      rw [if_neg]
      intro hab
      obtain ⟨ca, hca, hpa⟩ := firstIdx_sound (· = '{') t a hf
      obtain ⟨cb, hcb, hpb⟩ := lastIdx_sound (· = '}') t b hl
      refine h ⟨a, b, hab, ?_, ?_⟩
      · rw [hca]; congr 1; exact of_decide_eq_true hpa
      · rw [hcb]; congr 1; exact of_decide_eq_true hpb

/-! ### Lemmas about `trimSpaceGo` -/

theorem head_of_dropWhile_not (p : Char → Bool) (l : List Char) (a : Char)
    (h : (l.dropWhile p).head? = some a) : p a = false := by
  have hm := List.head?_dropWhile_not p l
  rw [h] at hm
  exact hm

theorem dropWhile_eq_self_of_head (p : Char → Bool) (l : List Char)
    (h : ∀ a, l.head? = some a → p a = false) : l.dropWhile p = l := by
  cases l with
  | nil => rfl
  | cons a m =>
    rw [List.dropWhile_cons, if_neg]
    simp [h a rfl]

theorem getLast?_dropWhile_of_ne_nil (p : Char → Bool) (l : List Char)
    (h : l.dropWhile p ≠ []) : (l.dropWhile p).getLast? = l.getLast? := by
  induction l with
  | nil => simp at h
  | cons a m ih =>
    rw [List.dropWhile_cons] at h ⊢
    by_cases hpa : p a = true
    · rw [if_pos hpa] at h ⊢
      rw [ih h]
      have hm : m ≠ [] := by
        intro he
        rw [he] at h
        simp at h
      cases m with
      | nil => exact absurd rfl hm
      | cons b m2 => rw [List.getLast?_cons_cons]
    · rw [if_neg hpa]

theorem trimSpaceGo_head (l : List Char) (a : Char)
    (h : (trimSpaceGo l).head? = some a) : isSpaceChar a = false := by
  unfold trimSpaceGo at h
  rw [List.head?_reverse] at h
  have hne : (l.dropWhile isSpaceChar).reverse.dropWhile isSpaceChar ≠ [] := by
    intro he
    rw [he] at h
    simp at h
  rw [getLast?_dropWhile_of_ne_nil isSpaceChar _ hne] at h
  rw [List.getLast?_reverse] at h
  exact head_of_dropWhile_not isSpaceChar l a h

theorem trimSpaceGo_getLast (l : List Char) (a : Char)
    (h : (trimSpaceGo l).getLast? = some a) : isSpaceChar a = false := by
  unfold trimSpaceGo at h
  rw [List.getLast?_reverse] at h
  exact head_of_dropWhile_not isSpaceChar _ a h

theorem trimSpaceGo_eq_self (l : List Char)
    (hh : ∀ a, l.head? = some a → isSpaceChar a = false)
    (hl : ∀ a, l.getLast? = some a → isSpaceChar a = false) :
    trimSpaceGo l = l := by
  unfold trimSpaceGo
  rw [dropWhile_eq_self_of_head isSpaceChar l hh]
  rw [dropWhile_eq_self_of_head isSpaceChar l.reverse
    (fun a ha => hl a (by rwa [List.head?_reverse] at ha))]
  exact List.reverse_reverse l

theorem trimSpaceGo_idem (l : List Char) :
    trimSpaceGo (trimSpaceGo l) = trimSpaceGo l :=
  trimSpaceGo_eq_self (trimSpaceGo l) (trimSpaceGo_head l) (trimSpaceGo_getLast l)

theorem trimSpaceGo_isInfix (l : List Char) : trimSpaceGo l <:+: l := by
  have h1 : l.dropWhile isSpaceChar <:+ l := List.dropWhile_suffix isSpaceChar
  have h2 : (l.dropWhile isSpaceChar).reverse.dropWhile isSpaceChar
      <:+ (l.dropWhile isSpaceChar).reverse := List.dropWhile_suffix isSpaceChar
  have h3 : trimSpaceGo l <+: l.dropWhile isSpaceChar := by
    refine List.reverse_suffix.mp ?_
    show (trimSpaceGo l).reverse <:+ (l.dropWhile isSpaceChar).reverse
    unfold trimSpaceGo
    rw [List.reverse_reverse]
    exact h2
  exact h3.isInfix.trans h1.isInfix

/-! ### Lemmas about `trimPrefixGo` / `trimSuffixGo` -/

theorem trimPrefixGo_append (x rest : List Char) : trimPrefixGo (x ++ rest) x = rest := by
  unfold trimPrefixGo
  rw [if_pos (List.prefix_append x rest)]
  exact List.drop_left x rest

theorem trimPrefixGo_of_not (s x : List Char) (h : ¬ x <+: s) : trimPrefixGo s x = s := by
  unfold trimPrefixGo
  rw [if_neg h]

theorem trimSuffixGo_append (front x : List Char) : trimSuffixGo (front ++ x) x = front := by
  unfold trimSuffixGo
  rw [if_pos (List.suffix_append front x)]
  have hlen : (front ++ x).length - x.length = front.length := by
    rw [List.length_append]
    omega
  rw [hlen]
  exact List.take_left front x

theorem trimSuffixGo_of_not (s x : List Char) (h : ¬ x <:+ s) : trimSuffixGo s x = s := by
  unfold trimSuffixGo
  rw [if_neg h]

theorem contains_trimPrefixGo (s x : List Char) (hx1 : '{' ∉ x)
    (h : ContainsJsonObject s) : ContainsJsonObject (trimPrefixGo s x) := by
  by_cases hp : x <+: s
  · obtain ⟨rest, rfl⟩ := hp
    rw [trimPrefixGo_append]
    obtain ⟨i, j, hij, hi, hj⟩ := h
    have hxi : x.length ≤ i := by
      by_contra hlt
      push_neg at hlt
      rw [List.getElem?_append_left hlt] at hi
      exact hx1 (List.getElem?_mem hi)
    have hxj : x.length ≤ j := Nat.le_trans hxi (Nat.le_of_lt hij)
    refine ⟨i - x.length, j - x.length, by omega, ?_, ?_⟩
    · rw [List.getElem?_append_right hxi] at hi
      exact hi
    · rw [List.getElem?_append_right hxj] at hj
      exact hj
  · rwa [trimPrefixGo_of_not s x hp]

theorem contains_trimSuffixGo (t x : List Char) (hx2 : '}' ∉ x)
    (h : ContainsJsonObject t) : ContainsJsonObject (trimSuffixGo t x) := by
  by_cases hs : x <:+ t
  · obtain ⟨front, rfl⟩ := hs
    rw [trimSuffixGo_append]
    obtain ⟨i, j, hij, hi, hj⟩ := h
    have hjf : j < front.length := by
      by_contra hge
      push_neg at hge
      rw [List.getElem?_append_right hge] at hj
      exact hx2 (List.getElem?_mem hj)
    have hif : i < front.length := Nat.lt_trans hij hjf
    refine ⟨i, j, hij, ?_, ?_⟩
    · rw [List.getElem?_append_left hif] at hi
      exact hi
    · rw [List.getElem?_append_left hjf] at hj
      exact hj
  · rwa [trimSuffixGo_of_not t x hs]

theorem containsJsonObject_mono (r c : List Char) (hrc : r <:+: c)
    (h : ContainsJsonObject r) : ContainsJsonObject c := by
  obtain ⟨u, v, rfl⟩ := hrc
  obtain ⟨i, j, hij, hi, hj⟩ := h
  have hilen : i < r.length := (List.getElem?_eq_some_iff.mp hi).1
  have hjlen : j < r.length := (List.getElem?_eq_some_iff.mp hj).1
  refine ⟨u.length + i, u.length + j, by omega, ?_, ?_⟩
  · rw [List.append_assoc]
    rw [List.getElem?_append_right (by omega : u.length ≤ u.length + i)]
    have he : u.length + i - u.length = i := by omega
    rw [he, List.getElem?_append_left hilen]
    exact hi
  · rw [List.append_assoc]
    rw [List.getElem?_append_right (by omega : u.length ≤ u.length + j)]
    have he : u.length + j - u.length = j := by omega
    rw [he, List.getElem?_append_left hjlen]
    exact hj

theorem noTriple_mono (r c : List Char) (hrc : r <:+: c) (h : ¬ tripleTick <:+: c) :
    ¬ tripleTick <:+: r := fun ht => h (ht.trans hrc)

/-! ### Fence-shape lemmas -/

/-- The spec-level shape hypothesis "optionally wrapped in code fences": the
input is a clean body (one containing no triple-backtick run) with at most
one opening fence marker in front and at most one closing fence behind. -/
def OptionallyFenced (s : List Char) : Prop :=
  ∃ c : List Char, ¬ tripleTick <:+: c ∧
    (s = c ∨ s = fenceJson ++ c ∨ s = c ++ tripleTick ∨ s = fenceJson ++ c ++ tripleTick)

theorem tripleTick_prefix_fenceJson : tripleTick <+: fenceJson :=
  ⟨"json".toList, by decide⟩

theorem noFencePrefix_of_noTriple (c : List Char) (h : ¬ tripleTick <:+: c) :
    ¬ fenceJson <+: c :=
  fun hp => h (tripleTick_prefix_fenceJson.trans hp).isInfix

theorem noTickSuffix_of_noTriple (c : List Char) (h : ¬ tripleTick <:+: c) :
    ¬ tripleTick <:+ c :=
  fun hs => h hs.isInfix

theorem noFencePrefix_append_tick (c : List Char) (h : ¬ tripleTick <:+: c) :
    ¬ fenceJson <+: c ++ tripleTick := by
  intro hp
  have hlen : fenceJson.length ≤ (c ++ tripleTick).length := hp.length_le
  have hc3 : 3 ≤ c.length := by
    rw [List.length_append] at hlen
    have h7 : fenceJson.length = 7 := by decide
    have h3 : tripleTick.length = 3 := by decide
    omega
  have htp : tripleTick <+: c ++ tripleTick := tripleTick_prefix_fenceJson.trans hp
  have h1 : tripleTick = (c ++ tripleTick).take tripleTick.length :=
    List.prefix_iff_eq_take.mp htp
  rw [List.take_append_of_le_length (by simpa using hc3)] at h1
  have h2 : tripleTick <+: c := h1 ▸ List.take_prefix tripleTick.length c
  exact h h2.isInfix

theorem stripFences_of_optionallyFenced (s c : List Char) (hc : ¬ tripleTick <:+: c)
    (hs : s = c ∨ s = fenceJson ++ c ∨ s = c ++ tripleTick ∨ s = fenceJson ++ c ++ tripleTick) :
    trimSuffixGo (trimPrefixGo s fenceJson) tripleTick = c := by
  rcases hs with rfl | rfl | rfl | rfl
  · rw [trimPrefixGo_of_not _ _ (noFencePrefix_of_noTriple _ hc)]
    exact trimSuffixGo_of_not _ _ (noTickSuffix_of_noTriple _ hc)
  · rw [trimPrefixGo_append]
    exact trimSuffixGo_of_not _ _ (noTickSuffix_of_noTriple _ hc)
  · rw [trimPrefixGo_of_not _ _ (noFencePrefix_append_tick _ hc)]
    exact trimSuffixGo_append _ tripleTick
  · rw [List.append_assoc, trimPrefixGo_append]
    exact trimSuffixGo_append _ tripleTick

/-! ### Fixed points of `cleanResponse` -/

theorem cleanResponse_of_brace_ends (r : List Char) (hh : r.head? = some '{')
    (hl : r.getLast? = some '}') : cleanResponse r = r := by
  have h0 : r[0]? = some '{' := by rwa [← List.head?_eq_getElem?]
  have hlast : r[r.length - 1]? = some '}' := by rwa [← List.getLast?_eq_getElem?]
  have hlen1 : 0 < r.length := by
    cases r with
    | nil => simp at hh
    | cons a m => simp
  have hlen2 : 2 ≤ r.length := by
    by_contra hlt
    push_neg at hlt
    have h1 : r.length = 1 := by omega
    rw [h1] at hlast
    simp only [Nat.sub_self] at hlast
    rw [h0] at hlast
    injection hlast with he
    exact absurd he (by decide)
  have hnp : ¬ fenceJson <+: r := by
    intro hp
    obtain ⟨rest, hr⟩ := hp
    rw [← hr, List.head?_append] at hh
    have : fenceJson.head? = some '\x60' := by decide
    rw [this] at hh
    simp only [Option.or_some] at hh
    injection hh with he
    exact absurd he (by decide)
  have hns : ¬ tripleTick <:+ r := by
    intro hsuf
    obtain ⟨front, hr⟩ := hsuf
    rw [← hr, List.getLast?_append] at hl
    have : tripleTick.getLast? = some '\x60' := by decide
    rw [this] at hl
    simp only [Option.or_some] at hl
    injection hl with he
    exact absurd he (by decide)
  obtain ⟨a, ha, hale⟩ := firstIdx_le (· = '{') r 0 '{' h0 (by simp)
  have ha0 : a = 0 := Nat.le_zero.mp hale
  subst ha0
  obtain ⟨b, hb, hble⟩ := lastIdx_ge (· = '}') r (r.length - 1) '}' hlast (by simp)
  obtain ⟨cb, hcb, _⟩ := lastIdx_sound (· = '}') r b hb
  have hblt : b < r.length := (List.getElem?_eq_some_iff.mp hcb).1
  have hbeq : b = r.length - 1 := by omega
  have hclip : braceClip r = r := by
    rw [braceClip_eq_of_idx r 0 b ha hb (by omega)]
    rw [List.drop_zero]
    have he : b + 1 - 0 = r.length := by omega
    rw [he]
    exact List.take_length r
  unfold cleanResponse
  rw [trimPrefixGo_of_not _ _ hnp, trimSuffixGo_of_not _ _ hns, hclip]
  refine trimSpaceGo_eq_self r ?_ ?_
  · intro a0 ha0
    rw [ha0] at hh
    injection hh with he
    rw [he]
    rfl
  · intro a0 ha0
    rw [ha0] at hl
    injection hl with he
    rw [he]
    rfl

theorem cleanResponse_fixed_of_contains (t : List Char) (h : ContainsJsonObject t) :
    cleanResponse (trimSpaceGo (braceClip t)) = trimSpaceGo (braceClip t) := by
  obtain ⟨hh, hl⟩ := braceClip_of_contains t h
  have hts : trimSpaceGo (braceClip t) = braceClip t := by
    refine trimSpaceGo_eq_self _ ?_ ?_
    · intro a ha
      rw [ha] at hh
      injection hh with he
      rw [he]
      rfl
    · intro a ha
      rw [ha] at hl
      injection hl with he
      rw [he]
      rfl
  rw [hts]
  exact cleanResponse_of_brace_ends _ hh hl

/-! ## Claim C3 -/

/-- Claim C3: `CleanResponse` is idempotent on every input that contains at
most one JSON object optionally wrapped in code fences — formalized as:
the input either contains a JSON object (an opening brace strictly before a
closing brace, `ContainsJsonObject`), or contains none and is a clean body
optionally wrapped in the `json` code-fence markers (`OptionallyFenced`). -/
theorem c3_cleanResponse_idempotent (s : List Char)
    (h : ContainsJsonObject s ∨ OptionallyFenced s) :
    cleanResponse (cleanResponse s) = cleanResponse s := by
  rcases h with h | ⟨c, hnc, hform⟩
  · have ht : ContainsJsonObject (trimSuffixGo (trimPrefixGo s fenceJson) tripleTick) :=
      contains_trimSuffixGo _ _ (by decide)
        (contains_trimPrefixGo _ _ (by decide) h)
    have hcs : cleanResponse s
        = trimSpaceGo (braceClip (trimSuffixGo (trimPrefixGo s fenceJson) tripleTick)) := rfl
    rw [hcs]
    exact cleanResponse_fixed_of_contains _ ht
  · have hstrip : trimSuffixGo (trimPrefixGo s fenceJson) tripleTick = c :=
      stripFences_of_optionallyFenced s c hnc hform
    have hcs : cleanResponse s = trimSpaceGo (braceClip c) := by
      unfold cleanResponse
      rw [hstrip]
    by_cases hcont : ContainsJsonObject c
    · rw [hcs]
      exact cleanResponse_fixed_of_contains c hcont
    · have hbc : braceClip c = c := braceClip_of_not_contains c hcont
      rw [hcs, hbc]
      have hinf : trimSpaceGo c <:+: c := trimSpaceGo_isInfix c
      have hnr : ¬ tripleTick <:+: trimSpaceGo c := noTriple_mono _ c hinf hnc
      have hncr : ¬ ContainsJsonObject (trimSpaceGo c) :=
        fun hx => hcont (containsJsonObject_mono _ c hinf hx)
      unfold cleanResponse
      rw [trimPrefixGo_of_not _ _ (noFencePrefix_of_noTriple _ hnr)]
      rw [trimSuffixGo_of_not _ _ (noTickSuffix_of_noTriple _ hnr)]
      rw [braceClip_of_not_contains _ hncr]
      exact trimSpaceGo_idem c

/-- Claim C3 witness: idempotence at the concrete fenced JSON response
`"```json{\"a\":1}```"` (braces at indices 7 and 13). -/
theorem c3_witness :
    cleanResponse (cleanResponse ("```json\x7b\"a\":1\x7d```").toList)
      = cleanResponse ("```json\x7b\"a\":1\x7d```").toList := by
  exact c3_cleanResponse_idempotent _ (Or.inl ⟨7, 13, by decide, by decide, by decide⟩)
